import Mathlib

/-!
Verification of the trademark-crawler core (src/crawler.ts).

The development shallowly embeds the crawl engine of `PolishPatentCrawler`:
date-range validation (`checkDateRange`), checkbox configuration
(`configureCheckboxes`), the search submission and outcome classification
(`executeSearch`), the detail-page field extractor (`getDetailInformation`),
the pagination loop of the default request handler, and the detail request
handler.  Browser/DOM state (cells, checkboxes, result pages, informational
messages) is modelled as explicit data; the Playwright/crawlee engine is a
black box, so its observable actions (typing into a selector, clicking,
enqueueing) appear as explicit action values or as the relevant data already
extracted from the page.
-/

/-! ## String helpers: the JS primitives used by the crawler -/

/-- Model of JavaScript `String.prototype.includes` restricted to the start of
the haystack: `pat` is a prefix of `hay`. -/
def strStartsWith : List Char → List Char → Bool
  | _, [] => true
  | [], _ :: _ => false
  | c :: cs, p :: ps => c = p && strStartsWith cs ps

/-- Substring containment on character lists (JS `String.prototype.includes`). -/
def strHasSub : List Char → List Char → Bool
  | [], pat => pat.isEmpty
  | c :: cs, pat => strStartsWith (c :: cs) pat || strHasSub cs pat

/-- Model of JavaScript `s.includes(pat)`. -/
def strContains (s pat : String) : Bool :=
  strHasSub s.toList pat.toList

/-- Whitespace, as matched by the crawler's `/\s+/` regex (common cases). -/
def isWS (c : Char) : Bool :=
  c = ' ' || c = '\t' || c = '\n' || c = '\r'

/-- Replace every maximal whitespace run by a single space
(JS `replace(/\s+/g, " ")`).  The flag records whether the previous
character belonged to a whitespace run already emitted. -/
def collapseAux : List Char → Bool → List Char
  | [], _ => []
  | c :: cs, inRun =>
    if isWS c then
      if inRun then collapseAux cs true else ' ' :: collapseAux cs true
    else c :: collapseAux cs false

/-- Model of JavaScript `String.prototype.trim`: drop leading and trailing
whitespace. -/
def jsTrim (s : String) : String :=
  ⟨((s.toList.dropWhile isWS).reverse.dropWhile isWS).reverse⟩

/-- Lower-case an ASCII character (JS `toLowerCase` on the portal's
ASCII message text). -/
def toLowerCh (c : Char) : Char :=
  if 65 ≤ c.toNat ∧ c.toNat ≤ 90 then Char.ofNat (c.toNat + 32) else c

/-- Model of JavaScript `String.prototype.toLowerCase`. -/
def jsToLower (s : String) : String :=
  ⟨s.toList.map toLowerCh⟩

/-- Model of the crawler's normalisation `text.trim().replace(/\s+/g, " ")`
applied to DOM `textContent` (crawler.ts lines 165 and 176). -/
def collapseWS (s : String) : String :=
  ⟨collapseAux (jsTrim s).toList false⟩

/-! ## Search executor (crawler.ts `executeSearch`, lines 98–138) -/

/-- The run-fatal error raised by the search step (crawlee `NonRetryableError`). -/
inductive CrawlerError where
  | nonRetryable : String → CrawlerError
deriving DecidableEq

/-- Normalisation applied to the informational message before classification:
`el.textContent.toLowerCase().trim()` (crawler.ts lines 123–127). -/
def normalizeMessage (t : String) : String :=
  jsTrim (jsToLower t)

/-- Model of the outcome classification at the end of `executeSearch`
(crawler.ts lines 123–137).  `msg` is the text content of the
`.tabs-info-message` element, `none` when the element is absent (the
`$eval` promise rejects and `.catch` yields `null`), in which case the
wait on line 116 guarantees a `.search-table` is present.  Falling off the
end of the function is success. -/
def executeSearchOutcome (msg : Option String) : Except CrawlerError Unit :=
  match msg.map normalizeMessage with
  | some t =>
    if strContains t "no results found" then
      .error (.nonRetryable "No results found for the given criteria")
    else if strContains t "too many results found" then
      .error (.nonRetryable "Too many results found. Please narrow your search criteria")
    else .ok ()
  | none => .ok ()

/-- Observable browser actions performed by `executeSearch` before the
outcome is classified. -/
inductive SearchAction where
  | waitLoad : SearchAction
  | waitSelector : String → SearchAction
  | setCheckboxes : SearchAction
  | typeDate : String → String → SearchAction
  | clickSubmit : SearchAction
deriving DecidableEq

/-- The action sequence of `executeSearch` (crawler.ts lines 103–114):
wait for the page, configure checkboxes, then fill the two date inputs —
the end date into `#attribute_date_from` (line 108) and the start date
into `#attribute_date_to` (line 109) — and submit. -/
def executeSearchActions (startDate endDate : String) : List SearchAction :=
  [ .waitLoad,
    .waitSelector ".search-attr-container",
    .setCheckboxes,
    .typeDate "#attribute_date_from" endDate,
    .typeDate "#attribute_date_to" startDate,
    .clickSubmit ]

/-- The first value typed into the date input identified by `sel` during a
sequence of search actions. -/
def typedValue (actions : List SearchAction) (sel : String) : Option String :=
  (actions.filterMap (fun a =>
    match a with
    | .typeDate s v => if s = sel then some v else none
    | _ => none)).head?

/-! ## Date-range validation (crawler.ts `checkDateRange`, lines 36–54) -/

/-- Numeric value of a decimal digit character. -/
def digitVal (c : Char) : Nat :=
  c.toNat - 48

/-- A calendar date as parsed from a `yyyy-MM-dd` string. -/
structure YMD where
  year : Nat
  month : Nat
  day : Nat
deriving DecidableEq

/-- Gregorian leap-year rule. -/
def isLeapYear (y : Nat) : Bool :=
  (y % 4 = 0 && y % 100 ≠ 0) || y % 400 = 0

/-- Number of days of month `m` in year `y`. -/
def daysInMonth (y m : Nat) : Nat :=
  if m = 2 then (if isLeapYear y then 29 else 28)
  else if m = 4 || m = 6 || m = 9 || m = 11 then 30
  else 31

/-- Character-list form of the `yyyy-MM-dd` parser: four digits, a dash,
two digits, a dash, two digits, denoting an existing calendar date. -/
def parseYMDChars : List Char → Option YMD
  | [y1, y2, y3, y4, a, m1, m2, b, d1, d2] =>
    if y1.isDigit && y2.isDigit && y3.isDigit && y4.isDigit && a = '-' &&
       m1.isDigit && m2.isDigit && b = '-' && d1.isDigit && d2.isDigit then
      let y := ((digitVal y1 * 10 + digitVal y2) * 10 + digitVal y3) * 10 + digitVal y4
      let m := digitVal m1 * 10 + digitVal m2
      let d := digitVal d1 * 10 + digitVal d2
      if 1 ≤ m && m ≤ 12 && 1 ≤ d && d ≤ daysInMonth y m then some ⟨y, m, d⟩
      else none
    else none
  | _ => none

/-- Model of the external `date-fns` `parse(dateStr, "yyyy-MM-dd", ...)`
followed by the `isNaN(parsed.getTime())` validity test (crawler.ts
lines 39–42): the string must consist of four digits, a dash, two digits,
a dash and two digits, and denote an existing calendar date; the result is
the parsed date.  Date parsing itself is an external collaborator of the
core, modelled here at the spec's granularity (well-formed `YYYY-MM-DD`). -/
def parseYMD (s : String) : Option YMD :=
  parseYMDChars s.toList

/-- Chronological order on parsed dates; `dateLe a b` models
`!(parsedStart > parsedEnd)` on the corresponding JS `Date` timestamps. -/
def dateLe (a b : YMD) : Bool :=
  if a.year < b.year then true
  else if b.year < a.year then false
  else if a.month < b.month then true
  else if b.month < a.month then false
  else decide (a.day ≤ b.day)

/-- Model of `checkDateRange` (crawler.ts lines 36–54): if either date
string fails to parse, throw the format error; if the parsed start date is
after the parsed end date, throw the range error; otherwise return. -/
def checkDateRange (startDate endDate : String) : Except String Unit :=
  match parseYMD startDate, parseYMD endDate with
  | some ps, some pe =>
    if dateLe ps pe then .ok ()
    else .error "Start date must be before or equal to end date."
  | _, _ => .error "Invalid date format. Use YYYY-MM-DD."

/-! Spec-side reading of well-formedness, written from the spec's words
("both dates must match `YYYY-MM-DD`", "start ≤ end") over character
positions of the string, to be compared with the source-derived
`parseYMD`. -/

/-- Year denoted by positions 0–3 of a `YYYY-MM-DD` character list. -/
def specYearChars (l : List Char) : Nat :=
  ((digitVal (l.getD 0 ' ') * 10 + digitVal (l.getD 1 ' ')) * 10 +
    digitVal (l.getD 2 ' ')) * 10 + digitVal (l.getD 3 ' ')

/-- Month denoted by positions 5–6 of a `YYYY-MM-DD` character list. -/
def specMonthChars (l : List Char) : Nat :=
  digitVal (l.getD 5 ' ') * 10 + digitVal (l.getD 6 ' ')

/-- Day denoted by positions 8–9 of a `YYYY-MM-DD` character list. -/
def specDayChars (l : List Char) : Nat :=
  digitVal (l.getD 8 ' ') * 10 + digitVal (l.getD 9 ' ')

/-- The calendar date denoted by a `YYYY-MM-DD` character list, read off
positionally. -/
def specDateChars (l : List Char) : YMD :=
  ⟨specYearChars l, specMonthChars l, specDayChars l⟩

/-- Spec-side well-formedness of a date character list: ten characters
shaped `DDDD-DD-DD` with digit positions `0,1,2,3,5,6,8,9`, denoting an
existing calendar date. -/
def specWFChars (l : List Char) : Prop :=
  l.length = 10 ∧
  (∀ i ∈ ([0, 1, 2, 3, 5, 6, 8, 9] : List Nat), (l.getD i ' ').isDigit = true) ∧
  l.getD 4 ' ' = '-' ∧ l.getD 7 ' ' = '-' ∧
  1 ≤ specMonthChars l ∧ specMonthChars l ≤ 12 ∧
  1 ≤ specDayChars l ∧ specDayChars l ≤ daysInMonth (specYearChars l) (specMonthChars l)

instance (l : List Char) : Decidable (specWFChars l) := by
  unfold specWFChars
  infer_instance

/-- Spec-side well-formedness of a date string (`YYYY-MM-DD`, existing
calendar date), written from the spec's words. -/
def specWellFormed (s : String) : Prop :=
  specWFChars s.toList

instance (s : String) : Decidable (specWellFormed s) := by
  unfold specWellFormed
  infer_instance

/-- The calendar date denoted by a well-formed date string. -/
def specDate (s : String) : YMD :=
  specDateChars s.toList

deriving instance DecidableEq for Except

/-! ## Checkbox configuration (crawler.ts `configureCheckboxes`, lines 56–84) -/

/-- The fixed allow-list of checkbox identifiers (crawler.ts lines 58–62). -/
def targetCheckboxes : List String :=
  ["pwp_criteria_0",
   "collections_criteria_advanced_7",
   "collections_criteria_advanced_7_child_attrs_0"]

/-- A checkbox of the search form as the configurator observes it:
its `id` attribute (`none` when the attribute is absent), its current
checked state, and whether the enclosing `.ui-chkbox` box proxy used for
clicking can be located. -/
structure Checkbox where
  id : Option String
  checked : Bool
  boxLocatable : Bool
deriving DecidableEq

instance : Inhabited Checkbox := ⟨⟨none, false, false⟩⟩

/-- One iteration of the `configureCheckboxes` loop (crawler.ts lines 64–83)
on a single checkbox: skip when the `id` attribute is missing; otherwise
compare the checked state to allow-list membership and, when they differ
and the box proxy is locatable, click the proxy (toggling the checkbox).
Returns the resulting checkbox state and whether a click was performed. -/
def configureCheckbox (cb : Checkbox) : Checkbox × Bool :=
  match cb.id with
  | none => (cb, false)
  | some i =>
    let shouldBeChecked := targetCheckboxes.contains i
    if cb.checked ≠ shouldBeChecked then
      if cb.boxLocatable then ({ cb with checked := !cb.checked }, true)
      else (cb, false)
    else (cb, false)

/-- Model of `configureCheckboxes` (crawler.ts lines 56–84): the loop body
acts on each checkbox of the form independently. -/
def configureCheckboxes (cbs : List Checkbox) : List (Checkbox × Bool) :=
  cbs.map configureCheckbox

/-! ## Field extractor (crawler.ts `getDetailInformation`, lines 140–187) -/

/-- The fixed ordered label table `fieldMappings` (crawler.ts lines 143–152).
`Object.entries` preserves the insertion order of these string keys. -/
def fieldMappings : List (String × String) :=
  [("Name/Title", "nameTitle"),
   ("Status", "status"),
   ("Application date", "applicationDate"),
   ("Revelation date", "revelationDate"),
   ("Application number", "applicationNumber"),
   ("Category of rights", "categoryOfRights"),
   ("Registration number", "registrationNumber"),
   ("Trademark type", "trademarkType")]

/-- Model of `Object.entries(fieldMappings).find(([label]) =>
labelText.includes(label))?.[1]` (crawler.ts lines 167–169). -/
def findField (labelText : String) : Option String :=
  (fieldMappings.find? (fun m => strContains labelText m.1)).map (fun m => m.2)

/-- A `td` cell of the detail table as the extractor observes it: whether
its class list contains `detail-title`, its `textContent`, and the
`textContent` of its first `.highlight` descendant when one exists. -/
structure Cell where
  isDetailTitle : Bool
  text : String
  highlight : Option String
deriving DecidableEq

/-- The extraction result object: a JS object with string keys, in
insertion order; a `none` value is the explicit JS `null`. -/
abbrev Record := List (String × Option String)

/-- JS property assignment `result[k] = v`: overwrite an existing key in
place, otherwise append. -/
def setKey : Record → String → Option String → Record
  | [], k, v => [(k, v)]
  | (k0, v0) :: rest, k, v =>
    if k0 = k then (k0, v) :: rest else (k0, v0) :: setKey rest k v

/-- JS property lookup: `some v` when the key is present (`v = none` being
an explicit `null` value), `none` when the key is absent. -/
def getKey : Record → String → Option (Option String)
  | [], _ => none
  | (k0, v0) :: rest, k => if k0 = k then some v0 else getKey rest k

/-- Whether a key is present in the result object. -/
def hasKey (r : Record) (k : String) : Bool :=
  (getKey r k).isSome

/-- Value resolution for a matched pair (crawler.ts lines 171–179): prefer
the trimmed text of the `.highlight` span when present and non-empty,
otherwise the whole value cell's whitespace-collapsed text; an empty
result is stored as `null` (`value || null`). -/
def resolveValue (vc : Cell) : Option String :=
  let v := match vc.highlight.map jsTrim with
    | some s => if s = "" then collapseWS vc.text else s
    | none => collapseWS vc.text
  if v = "" then none else some v

/-- The inner cell loop of `getDetailInformation` (crawler.ts lines
159–182): walk the row's cells two at a time; at each even offset, when
the cell carries class `detail-title` and a value cell follows, match the
whitespace-collapsed label text against the label table and store the
resolved value under the matched field. -/
def processCells : List Cell → Record → Record
  | lc :: vc :: rest, acc =>
    let acc2 :=
      if lc.isDetailTitle then
        match findField (collapseWS lc.text) with
        | some f => setKey acc f (resolveValue vc)
        | none => acc
      else acc
    processCells rest acc2
  | _, acc => acc

/-- Model of `getDetailInformation` (crawler.ts lines 140–187): fold the
cell loop over all rows of `table.details-list`, starting from the empty
object. -/
def getDetailInformation (rows : List (List Cell)) : Record :=
  rows.foldl (fun acc r => processCells r acc) []

/-- Model of the `detail` request handler's storage decision (crawler.ts
lines 231–241): extract the record from the rendered rows; append it to
the shared results when it has at least one key (`Object.keys(data).length`),
otherwise log a warning and skip.  Returns the new results list and
whether the record was stored. -/
def handleDetail (results : List Record) (rows : List (List Cell)) :
    List Record × Bool :=
  let data := getDetailInformation rows
  if data.length ≠ 0 then (results ++ [data], true) else (results, false)

/-! ## Pagination loop (crawler.ts default handler, lines 196–221) -/

/-- A results page as the pagination loop observes it: the detail links its
rows expose (selector `table tbody tr td a`) and whether an enabled next
control (`a.ui-paginator-next:not(.ui-state-disabled)`) is present. -/
structure ResultsPage where
  rowLinks : List String
  nextEnabled : Bool

/-- The `do { enqueue; next? } while` pagination loop (crawler.ts lines
203–220).  `portal k` is the results page shown after `k` clicks of the
next control.  Fuel bounds the number of iterations modelled; the returned
flag is `true` exactly when the loop reached its normal exit (a missing or
disabled next control) within the given fuel.  The first component lists,
in order, the indices of the pages whose row links were enqueued. -/
def paginate (portal : Nat → ResultsPage) : Nat → Nat → List Nat × Bool
  | 0, _ => ([], false)
  | fuel + 1, k =>
    if (portal k).nextEnabled then
      let r := paginate portal fuel (k + 1)
      (k :: r.1, r.2)
    else ([k], true)

/-- Whether the pagination loop, started on page 0, terminates at all. -/
def paginationTerminates (portal : Nat → ResultsPage) : Prop :=
  ∃ fuel, (paginate portal fuel 0).2 = true

/-- A defective portal whose next control is always enabled (the pagination
defect named by the spec). -/
def defectPortal : Nat → ResultsPage :=
  fun _ => ⟨["detail-link"], true⟩

/-- A three-page portal: pages 0 and 1 expose an enabled next control,
page 2 does not. -/
def portal3 : Nat → ResultsPage :=
  fun k => if k < 2 then ⟨["row-a", "row-b"], true⟩ else ⟨["row-c"], false⟩

/-! ## Job ceiling (crawler.ts lines 244–255, crawlee engine) -/

/-- Model of the crawlee request loop under `maxRequestsPerCrawl: 1000`
(crawler.ts line 249): requests are taken from the queue; handling request
`j` may enqueue further requests `spawn j`; the engine stops once 1000
requests have been handled.  Returns the final handled count starting from
`handled`. -/
def runJobs (spawn : Nat → List Nat) : List Nat → Nat → Nat
  | [], handled => handled
  | j :: rest, handled =>
    if handled < 1000 then runJobs spawn (rest ++ spawn j) (handled + 1)
    else handled
termination_by _ handled => 1000 - handled

/-! ## Spec-side predicates for the extractor invariants -/

/-- The fixed eight-field output schema (values of the label table;
mirrors the optional fields of the `TrademarkData` interface,
crawler.ts lines 11–20). -/
def schemaFields : List String :=
  fieldMappings.map (fun m => m.2)

/-- A value the extractor may store: the explicit `null`, or a non-empty
string. -/
def GoodValue (v : Option String) : Prop :=
  v = none ∨ ∃ s, v = some s ∧ s ≠ ""

/-- A row can contribute field `f` only through a label-style cell sitting
at an even cell offset (even-length preceding cell list) with a value cell
immediately after it, whose collapsed label text matches `f`. -/
def RowContrib (row : List Cell) (f : String) : Prop :=
  ∃ pre lc vc suf, row = pre ++ lc :: vc :: suf ∧ pre.length % 2 = 0 ∧
    lc.isDetailTitle = true ∧ findField (collapseWS lc.text) = some f

/-! ## Helper lemmas -/

theorem getKey_setKey_self (r : Record) (k : String) (v : Option String) :
    getKey (setKey r k v) k = some v := by
  induction r with
  | nil => simp [setKey, getKey]
  | cons kv rest ih =>
    obtain ⟨k0, v0⟩ := kv
    by_cases h : k0 = k <;> simp [setKey, getKey, h, ih]

theorem hasKey_setKey_self (r : Record) (k : String) (v : Option String) :
    hasKey (setKey r k v) k = true := by
  simp [hasKey, getKey_setKey_self]

theorem getKey_setKey_ne (r : Record) (k0 : String) (v : Option String) (k : String)
    (h : k ≠ k0) : getKey (setKey r k0 v) k = getKey r k := by
  induction r with
  | nil => simp [setKey, getKey, Ne.symm h]
  | cons kv rest ih =>
    obtain ⟨k1, v1⟩ := kv
    by_cases h1 : k1 = k0
    · have h2 : k1 ≠ k := fun hh => h (hh ▸ h1)
      simp [setKey, getKey, h1, h2, Ne.symm h]
    · by_cases h2 : k1 = k <;> simp [setKey, getKey, h1, h2, h, ih]

theorem hasKey_setKey_of (r : Record) (k0 : String) (v : Option String) (k : String)
    (h : hasKey r k = true) : hasKey (setKey r k0 v) k = true := by
  by_cases hk : k = k0
  · exact hk ▸ hasKey_setKey_self r k v
  · unfold hasKey
    rw [getKey_setKey_ne r k0 v k hk]
    exact h

theorem hasKey_setKey_inv (r : Record) (k0 : String) (v : Option String) (k : String)
    (h : hasKey (setKey r k0 v) k = true) : k = k0 ∨ hasKey r k = true := by
  by_cases hk : k = k0
  · exact Or.inl hk
  · unfold hasKey at h
    rw [getKey_setKey_ne r k0 v k hk] at h
    exact Or.inr h

theorem mem_setKey (r : Record) (k : String) (v : Option String)
    (kv : String × Option String) (h : kv ∈ setKey r k v) :
    kv ∈ r ∨ kv = (k, v) := by
  induction r with
  | nil => simp [setKey] at h; simp [h]
  | cons kv0 rest ih =>
    obtain ⟨k1, v1⟩ := kv0
    by_cases h1 : k1 = k
    · simp [setKey, h1] at h
      rcases h with h | h
      · exact Or.inr (by simp [h, h1])
      · exact Or.inl (by simp [h])
    · simp [setKey, h1] at h
      rcases h with h | h
      · exact Or.inl (by simp [h])
      · rcases ih h with hl | hr
        · exact Or.inl (by simp [hl])
        · exact Or.inr hr

theorem goodValue_ite (v : String) : GoodValue (if v = "" then none else some v) := by
  by_cases h : v = "" <;> simp [GoodValue, h]

theorem resolveValue_good (vc : Cell) : GoodValue (resolveValue vc) := by
  unfold resolveValue
  exact goodValue_ite _

theorem findField_mem (lbl f : String) (h : findField lbl = some f) :
    f ∈ schemaFields := by
  unfold findField at h
  rcases hopt : fieldMappings.find? (fun m => strContains lbl m.1) with _ | m
  · rw [hopt] at h; cases h
  · rw [hopt] at h
    simp only [Option.map_some'] at h
    injection h with h
    have hmem := List.mem_of_find?_eq_some hopt
    exact h ▸ List.mem_map.mpr ⟨m, hmem, rfl⟩

theorem processCells_hasKey_mono (cs : List Cell) (acc : Record) (f : String)
    (h : hasKey acc f = true) : hasKey (processCells cs acc) f = true := by
  match cs with
  | [] => simpa [processCells] using h
  | [c] => simpa [processCells] using h
  | lc :: vc :: rest =>
    rw [processCells]
    apply processCells_hasKey_mono rest
    by_cases hdt : lc.isDetailTitle
    · cases hff : findField (collapseWS lc.text) with
      | none => simpa [hdt, hff] using h
      | some f0 =>
        simp only [hdt, if_true, hff]
        exact hasKey_setKey_of acc f0 _ f h
    · simpa [hdt] using h

theorem processCells_hasKey_src (cs : List Cell) (acc : Record) (f : String)
    (h : hasKey (processCells cs acc) f = true) :
    hasKey acc f = true ∨ RowContrib cs f := by
  match cs with
  | [] => left; simpa [processCells] using h
  | [c] => left; simpa [processCells] using h
  | lc :: vc :: rest =>
    rw [processCells] at h
    rcases processCells_hasKey_src rest _ f h with h2 | ⟨pre, lc1, vc1, suf, heq, hpar, hdt1, hff1⟩
    · by_cases hdt : lc.isDetailTitle
      · cases hff : findField (collapseWS lc.text) with
        | none => left; simpa [hdt, hff] using h2
        | some f0 =>
          simp only [hdt, if_true, hff] at h2
          rcases hasKey_setKey_inv acc f0 _ f h2 with rfl | hacc
          · right; exact ⟨[], lc, vc, rest, rfl, by simp, hdt, hff⟩
          · left; exact hacc
      · left; simpa [hdt] using h2
    · right
      refine ⟨lc :: vc :: pre, lc1, vc1, suf, by simp [heq], ?_, hdt1, hff1⟩
      simp only [List.length_cons]
      omega

theorem processCells_mem (cs : List Cell) (acc : Record)
    (kv : String × Option String) (h : kv ∈ processCells cs acc) :
    kv ∈ acc ∨ (kv.1 ∈ schemaFields ∧ GoodValue kv.2) := by
  match cs with
  | [] => left; simpa [processCells] using h
  | [c] => left; simpa [processCells] using h
  | lc :: vc :: rest =>
    rw [processCells] at h
    rcases processCells_mem rest _ kv h with h2 | hgood
    · by_cases hdt : lc.isDetailTitle
      · cases hff : findField (collapseWS lc.text) with
        | none => left; simpa [hdt, hff] using h2
        | some f0 =>
          simp only [hdt, if_true, hff] at h2
          rcases mem_setKey acc f0 _ kv h2 with hmem | hkv
          · left; exact hmem
          · right
            rw [hkv]
            exact ⟨findField_mem _ _ hff, resolveValue_good vc⟩
      · left; simpa [hdt] using h2
    · right; exact hgood

theorem foldl_processCells_mem (rows : List (List Cell)) :
    ∀ (acc : Record) (kv : String × Option String),
      kv ∈ rows.foldl (fun a r => processCells r a) acc →
      kv ∈ acc ∨ (kv.1 ∈ schemaFields ∧ GoodValue kv.2) := by
  induction rows with
  | nil => intro acc kv h; left; simpa using h
  | cons r rs ih =>
    intro acc kv h
    rw [List.foldl_cons] at h
    rcases ih (processCells r acc) kv h with hmem | hg
    · exact processCells_mem r acc kv hmem
    · right; exact hg

theorem foldl_processCells_hasKey (rows : List (List Cell)) :
    ∀ (acc : Record) (f : String),
      hasKey (rows.foldl (fun a r => processCells r a) acc) f = true →
      hasKey acc f = true ∨ ∃ row ∈ rows, RowContrib row f := by
  induction rows with
  | nil => intro acc f h; left; simpa using h
  | cons r rs ih =>
    intro acc f h
    rw [List.foldl_cons] at h
    rcases ih (processCells r acc) f h with hk | ⟨row, hrow, hc⟩
    · rcases processCells_hasKey_src r acc f hk with hk2 | hc
      · left; exact hk2
      · right; exact ⟨r, by simp, hc⟩
    · right; exact ⟨row, by simp [hrow], hc⟩

theorem find?_getD_first {α : Type} (p : α → Bool) (d : α) :
    ∀ (l : List α) (i : Nat), i < l.length → p (l.getD i d) = true →
      (∀ j, j < i → p (l.getD j d) = false) → l.find? p = some (l.getD i d) := by
  intro l
  induction l with
  | nil => intro i hi _ _; simp at hi
  | cons a t ih =>
    intro i hi hp hfirst
    cases i with
    | zero =>
      simp only [List.getD_cons_zero] at hp ⊢
      exact List.find?_cons_of_pos t hp
    | succ n =>
      have ha : p a = false := by simpa using hfirst 0 (Nat.succ_pos n)
      rw [List.find?_cons_of_neg t (by simp [ha])]
      simp only [List.getD_cons_succ] at hp ⊢
      exact ih n (by simpa using hi) hp
        (fun j hj => by simpa using hfirst (j + 1) (by omega))

theorem paginate_run (portal : Nat → ResultsPage) :
    ∀ (m fuel k : Nat), (∀ i, i < m → (portal (k + i)).nextEnabled = true) →
      (portal (k + m)).nextEnabled = false → m < fuel →
      paginate portal fuel k = ((List.range (m + 1)).map (k + ·), true) := by
  intro m
  induction m with
  | zero =>
    intro fuel k _ hlast hf
    cases fuel with
    | zero => omega
    | succ f =>
      rw [paginate]
      simp only [Nat.add_zero] at hlast
      simp [hlast, List.range_succ]
  | succ n ih =>
    intro fuel k hen hlast hf
    cases fuel with
    | zero => omega
    | succ f =>
      have h0 : (portal k).nextEnabled = true := by
        simpa using hen 0 (by omega)
      rw [paginate]
      simp only [h0, if_true]
      have hrec := ih f (k + 1)
        (fun i hi => by
          have := hen (i + 1) (by omega)
          simpa [Nat.add_assoc, Nat.add_comm 1 i] using this)
        (by
          have : k + 1 + n = k + (n + 1) := by omega
          rw [this]
          exact hlast)
        (by omega)
      rw [hrec]
      rw [List.range_succ_eq_map (n + 1)]
      simp only [List.map_cons, List.map_map, Nat.add_zero, Prod.mk.injEq, List.cons.injEq,
        true_and, and_true]
      apply List.map_congr_left
      intro x _
      simp only [Function.comp_apply]
      omega

theorem paginate_defect_not_done (fuel : Nat) :
    ∀ k, (paginate defectPortal fuel k).2 = false := by
  induction fuel with
  | zero => intro k; rfl
  | succ f ih =>
    intro k
    rw [paginate]
    simp only [defectPortal, if_true]
    exact ih (k + 1)

theorem runJobs_le (spawn : Nat → List Nat) (queue : List Nat) (handled : Nat) :
    runJobs spawn queue handled ≤ max handled 1000 := by
  match queue with
  | [] =>
    rw [runJobs]
    exact Nat.le_max_left _ _
  | j :: rest =>
    rw [runJobs]
    split
    next h =>
      have hrec := runJobs_le spawn (rest ++ spawn j) (handled + 1)
      have : max (handled + 1) 1000 = 1000 := by omega
      rw [this] at hrec
      omega
    next h => exact Nat.le_max_left _ _
termination_by 1000 - handled
decreasing_by simp_wf; omega

theorem length10_destruct (l : List Char) (h : l.length = 10) :
    ∃ c0 c1 c2 c3 c4 c5 c6 c7 c8 c9,
      l = [c0, c1, c2, c3, c4, c5, c6, c7, c8, c9] := by
  rcases l with _ | ⟨c0, l⟩; · simp at h
  rcases l with _ | ⟨c1, l⟩; · simp at h
  rcases l with _ | ⟨c2, l⟩; · simp at h
  rcases l with _ | ⟨c3, l⟩; · simp at h
  rcases l with _ | ⟨c4, l⟩; · simp at h
  rcases l with _ | ⟨c5, l⟩; · simp at h
  rcases l with _ | ⟨c6, l⟩; · simp at h
  rcases l with _ | ⟨c7, l⟩; · simp at h
  rcases l with _ | ⟨c8, l⟩; · simp at h
  rcases l with _ | ⟨c9, l⟩; · simp at h
  rcases l with _ | ⟨c10, l⟩
  · exact ⟨c0, c1, c2, c3, c4, c5, c6, c7, c8, c9, rfl⟩
  · simp at h

theorem parseYMDChars_not_ten (l : List Char) (h : l.length ≠ 10) :
    parseYMDChars l = none := by
  rw [parseYMDChars.eq_def]
  split
  · simp at h
  · rfl

theorem specWFChars_len (l : List Char) (h : specWFChars l) : l.length = 10 :=
  h.1

theorem parseYMDChars_eq (l : List Char) :
    parseYMDChars l = if specWFChars l then some (specDateChars l) else none := by
  by_cases hlen : l.length = 10
  · obtain ⟨c0, c1, c2, c3, c4, c5, c6, c7, c8, c9, rfl⟩ := length10_destruct l hlen
    by_cases hwf : specWFChars [c0, c1, c2, c3, c4, c5, c6, c7, c8, c9]
    · rw [if_pos hwf]
      obtain ⟨-, hdig, h4, h7, hm1, hm2, hd1, hd2⟩ := hwf
      have h0 := hdig 0 (by simp)
      have h1 := hdig 1 (by simp)
      have h2 := hdig 2 (by simp)
      have h3 := hdig 3 (by simp)
      have h5 := hdig 5 (by simp)
      have h6 := hdig 6 (by simp)
      have h8 := hdig 8 (by simp)
      have h9 := hdig 9 (by simp)
      simp only [List.getD_cons_zero, List.getD_cons_succ] at h0 h1 h2 h3 h5 h6 h8 h9 h4 h7
      simp only [specMonthChars, specDayChars, specYearChars, List.getD_cons_zero,
        List.getD_cons_succ] at hm1 hm2 hd1 hd2
      simp [parseYMDChars, specDateChars, specYearChars, specMonthChars, specDayChars,
        List.getD_cons_zero, List.getD_cons_succ,
        h0, h1, h2, h3, h4, h5, h6, h7, h8, h9, hm1, hm2, hd1, hd2]
    · rw [if_neg hwf]
      simp only [parseYMDChars]
      split
      next hfmt =>
        split
        next hcal =>
          exfalso
          apply hwf
          simp only [Bool.and_eq_true, decide_eq_true_eq] at hfmt hcal
          obtain ⟨⟨⟨⟨⟨⟨⟨⟨⟨g0, g1⟩, g2⟩, g3⟩, g4⟩, g5⟩, g6⟩, g7⟩, g8⟩, g9⟩ := hfmt
          obtain ⟨⟨⟨k1, k2⟩, k3⟩, k4⟩ := hcal
          refine ⟨by simp, ?_, by simpa using g4, by simpa using g7, ?_, ?_, ?_, ?_⟩
          · intro i hi
            fin_cases hi <;>
              simp only [List.getD_cons_zero, List.getD_cons_succ] <;>
              assumption
          · simpa [specMonthChars, List.getD_cons_zero, List.getD_cons_succ] using k1
          · simpa [specMonthChars, List.getD_cons_zero, List.getD_cons_succ] using k2
          · simpa [specDayChars, List.getD_cons_zero, List.getD_cons_succ] using k3
          · simpa [specDayChars, specMonthChars, specYearChars, List.getD_cons_zero,
              List.getD_cons_succ] using k4
        next hcal => rfl
      next hfmt => rfl
  · rw [parseYMDChars_not_ten l hlen, if_neg (fun h => hlen (specWFChars_len l h))]

/-! ## Claims -/

/-- C1: during form configuration the run's start date value is typed into
the form's `#attribute_date_to` input and the run's end date value into the
`#attribute_date_from` input — for every pair of configured dates the two
assignments are swapped relative to the input field names. -/
theorem claim_C1_dates_swapped (startDate endDate : String) :
    typedValue (executeSearchActions startDate endDate) "#attribute_date_to" = some startDate ∧
    typedValue (executeSearchActions startDate endDate) "#attribute_date_from" = some endDate := by
  constructor <;> rfl

/-- C1 witness: the swap at a concrete date pair. -/
theorem claim_C1_witness :
    typedValue (executeSearchActions "2024-01-01" "2024-12-31") "#attribute_date_to" =
        some "2024-01-01" ∧
    typedValue (executeSearchActions "2024-01-01" "2024-12-31") "#attribute_date_from" =
        some "2024-12-31" :=
  claim_C1_dates_swapped "2024-01-01" "2024-12-31"

/-- C2: after search submission, a present informational message whose
normalised text contains "no results found" raises a non-retryable failure,
one containing "too many results found" raises a non-retryable failure, and
in every other case (other message text, or no message with the results
table present) the search step returns success without raising. -/
theorem claim_C2_outcome_classification (t : String) :
    (strContains (normalizeMessage t) "no results found" = true →
      executeSearchOutcome (some t) =
        .error (.nonRetryable "No results found for the given criteria")) ∧
    (strContains (normalizeMessage t) "too many results found" = true →
      ∃ r, executeSearchOutcome (some t) = .error (.nonRetryable r)) ∧
    (strContains (normalizeMessage t) "no results found" = false →
      strContains (normalizeMessage t) "too many results found" = false →
      executeSearchOutcome (some t) = .ok ()) ∧
    executeSearchOutcome none = .ok () := by
  refine ⟨fun h1 => ?_, fun h2 => ?_, fun h1 h2 => ?_, rfl⟩
  · simp [executeSearchOutcome, h1]
  · by_cases h1 : strContains (normalizeMessage t) "no results found" = true
    · exact ⟨"No results found for the given criteria", by simp [executeSearchOutcome, h1]⟩
    · simp only [Bool.not_eq_true] at h1
      exact ⟨"Too many results found. Please narrow your search criteria",
        by simp [executeSearchOutcome, h1, h2]⟩
  · simp [executeSearchOutcome, h1, h2]

/-- C2 witness: the two synthetic portal messages named by the spec. -/
theorem claim_C2_witness :
    executeSearchOutcome (some "No results found for your query") =
      .error (.nonRetryable "No results found for the given criteria") ∧
    (∃ r, executeSearchOutcome (some "Too many results found, please narrow your search") =
      .error (.nonRetryable r)) :=
  ⟨(claim_C2_outcome_classification "No results found for your query").1 (by decide),
   (claim_C2_outcome_classification "Too many results found, please narrow your search").2.1
     (by decide)⟩

/-- C3: for every pair of date strings, `checkDateRange` succeeds exactly
when both strings are well-formed `YYYY-MM-DD` dates with start ≤ end;
a malformed string raises the format configuration error and a reversed
pair raises the range configuration error (this happens in `crawl` before
any browser work). -/
theorem claim_C3_date_range_validation (s e : String) :
    (checkDateRange s e = .ok () ↔
      specWellFormed s ∧ specWellFormed e ∧ dateLe (specDate s) (specDate e) = true) ∧
    (¬(specWellFormed s ∧ specWellFormed e) →
      checkDateRange s e = .error "Invalid date format. Use YYYY-MM-DD.") ∧
    (specWellFormed s → specWellFormed e → dateLe (specDate s) (specDate e) = false →
      checkDateRange s e = .error "Start date must be before or equal to end date.") := by
  unfold checkDateRange parseYMD specWellFormed specDate
  rw [parseYMDChars_eq s.toList, parseYMDChars_eq e.toList]
  by_cases hws : specWFChars s.data <;> by_cases hwe : specWFChars e.data <;>
    simp [hws, hwe]

/-- C3 witness: a valid pair validates, a reversed pair raises the range
error, a malformed string raises the format error. -/
theorem claim_C3_witness :
    checkDateRange "2024-01-01" "2024-12-31" = .ok () ∧
    checkDateRange "2024-12-31" "2024-01-01" =
      .error "Start date must be before or equal to end date." ∧
    checkDateRange "2024-1-1" "2024-12-31" = .error "Invalid date format. Use YYYY-MM-DD." :=
  ⟨(claim_C3_date_range_validation "2024-01-01" "2024-12-31").1.mpr
      ⟨by decide, by decide, by decide⟩,
   (claim_C3_date_range_validation "2024-12-31" "2024-01-01").2.2
      (by decide) (by decide) (by decide),
   (claim_C3_date_range_validation "2024-1-1" "2024-12-31").2.1
      (fun h => by exact absurd h.1 (by decide))⟩

/-- C4: the extractor matches the whitespace-collapsed label text by
substring containment against the fixed ordered label table, and when the
label text contains the phrase at position `i` while containing none of
the earlier phrases, the resolved output field is the one at position `i`
(first match in table order wins). -/
theorem claim_C4_first_match_wins (lbl : String) (i : Nat)
    (hi : i < fieldMappings.length)
    (hmatch : strContains (collapseWS lbl) ((fieldMappings.getD i ("", "")).1) = true)
    (hfirst : ∀ j, j < i →
      strContains (collapseWS lbl) ((fieldMappings.getD j ("", "")).1) = false) :
    findField (collapseWS lbl) = some ((fieldMappings.getD i ("", "")).2) := by
  unfold findField
  rw [find?_getD_first (fun m => strContains (collapseWS lbl) m.1) ("", "")
    fieldMappings i hi hmatch hfirst]
  rfl

/-- C4 witness: a label containing both the "Status" phrase (position 1)
and the "Application number" phrase (position 4) resolves to the earlier
table entry, `status`. -/
theorem claim_C4_witness :
    findField (collapseWS "Status of Application number") =
      some ((fieldMappings.getD 1 ("", "")).2) :=
  claim_C4_first_match_wins "Status of Application number" 1 (by decide) (by decide)
    (by decide)

/-- C5: the resolved value of a matched pair is the highlighted span's
trimmed text when the span is present with non-empty trimmed text, and
otherwise the whole value cell's whitespace-collapsed text; a matched
label is always stored (as an explicit `null` when the resolved value is
empty), never left absent. -/
theorem claim_C5_value_resolution (vc lc : Cell) (rest : List Cell) (acc : Record)
    (f : String) :
    (∀ hl, vc.highlight = some hl → jsTrim hl ≠ "" → resolveValue vc = some (jsTrim hl)) ∧
    ((vc.highlight = none ∨ vc.highlight.map jsTrim = some "") →
      resolveValue vc = (if collapseWS vc.text = "" then none else some (collapseWS vc.text))) ∧
    getKey (setKey acc f (resolveValue vc)) f = some (resolveValue vc) ∧
    (lc.isDetailTitle = true → findField (collapseWS lc.text) = some f →
      hasKey (processCells (lc :: vc :: rest) acc) f = true) := by
  refine ⟨?_, ?_, getKey_setKey_self acc f _, ?_⟩
  · intro hl hh hne
    unfold resolveValue
    rw [hh]
    simp [hne]
  · intro hcase
    unfold resolveValue
    rcases hcase with hnone | hsome
    · rw [hnone]
      rfl
    · rcases hh : vc.highlight with _ | hl
      · rfl
      · rw [hh] at hsome
        simp only [Option.map_some'] at hsome
        injection hsome with hsome
        simp [hsome]
  · intro hdt hff
    rw [processCells]
    apply processCells_hasKey_mono
    simp only [hdt, if_true, hff]
    exact hasKey_setKey_self acc f _

/-- C5 witness: a value cell with surrounding text and a highlighted span
resolves to the trimmed span text, not the full cell text. -/
theorem claim_C5_witness :
    resolveValue ⟨false, "prefix X suffix", some " X "⟩ = some (jsTrim " X ") :=
  (claim_C5_value_resolution ⟨false, "prefix X suffix", some " X "⟩
    ⟨true, "Status", none⟩ [] [] "status").1 " X " rfl (by decide)

/-- C6: a detail job whose extraction yields zero populated fields is not
appended to the shared record collection; the handler returns normally
with the collection unchanged and the record marked as skipped. -/
theorem claim_C6_empty_extraction_skipped (results : List Record) (rows : List (List Cell))
    (h : (getDetailInformation rows).length = 0) :
    handleDetail results rows = (results, false) := by
  unfold handleDetail
  simp [h]

/-- C6 witness: a page whose only cell is not a label-style cell yields an
empty record and is skipped. -/
theorem claim_C6_witness :
    handleDetail [] [[⟨false, "ACME Corp", none⟩]] = ([], false) :=
  claim_C6_empty_extraction_skipped [] [[⟨false, "ACME Corp", none⟩]] (by decide)

/-- C7: pagination enqueues the rows of the current page and then follows
the enabled next control; when only the first `n - 1` pages expose an
enabled next control, exactly the pages `0, …, n - 1` have their rows
enqueued and the loop stops normally. -/
theorem claim_C7_pagination_visits (portal : Nat → ResultsPage) (n fuel : Nat)
    (hn : 0 < n) (hfuel : n ≤ fuel)
    (hen : ∀ i, i < n - 1 → (portal i).nextEnabled = true)
    (hlast : (portal (n - 1)).nextEnabled = false) :
    paginate portal fuel 0 = (List.range n, true) := by
  have h := paginate_run portal (n - 1) fuel 0 (fun i hi => by simpa using hen i hi)
    (by simpa using hlast) (by omega)
  have hm : n - 1 + 1 = n := by omega
  rw [hm] at h
  simpa using h

/-- C7 witness: a three-page portal whose pages 0 and 1 expose an enabled
next control; exactly pages 0, 1, 2 are enqueued and the loop halts. -/
theorem claim_C7_witness : paginate portal3 5 0 = (List.range 3, true) :=
  claim_C7_pagination_visits portal3 3 5 (by decide) (by decide) (by decide) (by decide)

/-- C8 counterexample: the claim demands that every checkbox outside the
allow-list end up unchecked, but a checked checkbox whose `id` attribute
is absent (hence in no allow-list) is skipped by the loop
(crawler.ts line 66) and stays checked, unclicked. -/
theorem claim_C8_counterexample :
    configureCheckboxes [⟨none, true, true⟩] = [(⟨none, true, true⟩, false)] := rfl

/-- C8 amended: every checkbox bearing an `id` whose box proxy is
locatable ends up checked exactly when its id is allow-listed; a checkbox
is clicked only when its current state differs from the target; checkboxes
without an `id`, or without a locatable proxy, are left in their prior
state and the configurator still returns normally for every form. -/
theorem claim_C8_amended_checkboxes (cb : Checkbox) (cbs : List Checkbox) :
    (∀ i, cb.id = some i → cb.boxLocatable = true →
      (configureCheckbox cb).1.checked = targetCheckboxes.contains i) ∧
    (cb.id = none → configureCheckbox cb = (cb, false)) ∧
    (cb.boxLocatable = false → configureCheckbox cb = (cb, false)) ∧
    ((configureCheckbox cb).2 = true →
      ∃ i, cb.id = some i ∧ cb.checked ≠ targetCheckboxes.contains i) ∧
    configureCheckboxes cbs = cbs.map configureCheckbox := by
  obtain ⟨oid, chk, box⟩ := cb
  refine ⟨?_, ?_, ?_, ?_, rfl⟩
  · intro i hid hbox
    cases oid with
    | none => cases hid
    | some i0 =>
      injection hid with hid
      subst hid
      simp only at hbox
      subst hbox
      cases chk <;> by_cases hmem : i0 ∈ targetCheckboxes <;>
        simp [configureCheckbox, hmem]
  · intro h
    cases oid with
    | none => rfl
    | some i0 => cases h
  · intro hbox
    simp only at hbox
    subst hbox
    cases oid with
    | none => rfl
    | some i0 =>
      by_cases hne : chk ≠ targetCheckboxes.contains i0 <;>
        simp [configureCheckbox, hne]
  · intro hclick
    cases oid with
    | none => simp [configureCheckbox] at hclick
    | some i0 =>
      by_cases hne : chk ≠ targetCheckboxes.contains i0
      · exact ⟨i0, rfl, hne⟩
      · exfalso
        have hfix : configureCheckbox ⟨some i0, chk, box⟩ = (⟨some i0, chk, box⟩, false) := by
          simp only [configureCheckbox]
          rw [if_neg hne]
        rw [hfix] at hclick
        exact Bool.noConfusion hclick

/-- C8 witness for the amended claim: an allow-listed checkbox with a
locatable proxy ends checked; one without a locatable proxy is left
untouched. -/
theorem claim_C8_witness :
    (configureCheckbox ⟨some "pwp_criteria_0", false, true⟩).1.checked =
      targetCheckboxes.contains "pwp_criteria_0" ∧
    configureCheckbox ⟨some "other_box", false, false⟩ =
      (⟨some "other_box", false, false⟩, false) :=
  ⟨(claim_C8_amended_checkboxes ⟨some "pwp_criteria_0", false, true⟩ []).1
      "pwp_criteria_0" rfl rfl,
   (claim_C8_amended_checkboxes ⟨some "other_box", false, false⟩ []).2.2.1 rfl⟩

/-- C9 counterexample: the 1000-job ceiling does not make the run
terminate under the pagination defect — the `do/while` pagination loop
runs inside a single request handler, and against a portal whose next
control is always enabled it never reaches its exit, whatever fuel it is
given. -/
theorem claim_C9_counterexample : ¬ paginationTerminates defectPortal := by
  rintro ⟨fuel, h⟩
  rw [paginate_defect_not_done fuel 0] at h
  exact Bool.noConfusion h

/-- C9 amended: the number of jobs processed by the crawl engine is
bounded by the fixed ceiling of 1000 (`maxRequestsPerCrawl`), but the
ceiling does not guarantee termination under an always-enabled next
control: the pagination loop inside the entry job never reaches its
normal exit (in the real system only the request-handler timeout cuts it
off). -/
theorem claim_C9_amended_ceiling :
    (∀ (spawn : Nat → List Nat) (queue : List Nat), runJobs spawn queue 0 ≤ 1000) ∧
    ¬ paginationTerminates defectPortal := by
  constructor
  · intro spawn queue
    have h := runJobs_le spawn queue 0
    simpa [Nat.zero_max] using h
  · rintro ⟨fuel, h⟩
    rw [paginate_defect_not_done fuel 0] at h
    exact Bool.noConfusion h

/-- C9 witness: the job bound applied to a concrete self-spawning queue. -/
theorem claim_C9_witness :
    runJobs (fun j => [j + 1]) [0] 0 ≤ 1000 :=
  claim_C9_amended_ceiling.1 (fun j => [j + 1]) [0]

/-- C10: every record the extractor produces draws its field names from
the fixed eight-field schema and maps each present field to `null` or a
non-empty string, and a field can only be contributed by a label-style
cell at an even cell offset of its row with a value cell immediately
after it. -/
theorem claim_C10_record_shape (rows : List (List Cell)) :
    (∀ kv ∈ getDetailInformation rows, kv.1 ∈ schemaFields ∧ GoodValue kv.2) ∧
    (∀ f, hasKey (getDetailInformation rows) f = true → ∃ row ∈ rows, RowContrib row f) := by
  constructor
  · intro kv hkv
    rcases foldl_processCells_mem rows [] kv hkv with h | h
    · simp at h
    · exact h
  · intro f hf
    rcases foldl_processCells_hasKey rows [] f hf with h | h
    · simp [hasKey, getKey] at h
    · exact h

/-- C10 witness: a concrete rendered row contributes the `status` field
through its label-style cell at offset 0. -/
theorem claim_C10_witness :
    ∃ row ∈ [[(⟨true, "Status", none⟩ : Cell), ⟨false, "Registered", none⟩]],
      RowContrib row "status" :=
  (claim_C10_record_shape [[⟨true, "Status", none⟩, ⟨false, "Registered", none⟩]]).2
    "status" (by decide)
